import Mathlib

/-!
Shallow embedding of `src/access-log-tabulator.c`, a streaming converter
from Apache Common/Combined Log Format lines to tab-separated values.

A line is a `List Char`; the end of the list plays the role of the NUL
terminator of the C buffer.  Output is modelled as the list of characters
emitted by `putchar`/`printf` calls, in order; an `error(...)` call is
modelled as an error value that aborts the remaining steps (the C program
calls `exit`), with all output emitted before the call kept.
-/

namespace AccessLogTabulator

/-- Error codes of the program, one per static error string in the source. -/
inductive Err where
  | tooManyArgs
  | lineIsTooLong
  | wrongLineFormat
  | inputReadError
  | wrongTimeFormat
  | timeBufferSizeExceeded
  | failedToParseMonth
  | failedToParseApacheDatetime
deriving DecidableEq

/-- Decidable equality for `Except`, needed to evaluate the embedding on
concrete inputs. -/
instance instDecidableEqExcept {ε α : Type} [DecidableEq ε] [DecidableEq α] :
    DecidableEq (Except ε α) := fun a b =>
  match a, b with
  | Except.error e1, Except.error e2 =>
    if h : e1 = e2 then isTrue (congrArg Except.error h)
    else isFalse fun hc => h (by cases hc; rfl)
  | Except.ok x, Except.ok y =>
    if h : x = y then isTrue (congrArg Except.ok h)
    else isFalse fun hc => h (by cases hc; rfl)
  | Except.error _, Except.ok _ => isFalse fun hc => Except.noConfusion hc
  | Except.ok _, Except.error _ => isFalse fun hc => Except.noConfusion hc

/-- C `isspace` in the default locale: space, tab, newline, vertical tab,
form feed, carriage return. -/
def isspace (c : Char) : Bool :=
  c = ' ' || c = '\t' || c = '\n' || c = '\x0b' || c = '\x0c' || c = '\r'

/-- `print_non_spaces`: emit characters until whitespace or the end of the
line (the NUL terminator is the end of the list).  Returns the emitted
output and the remaining input. -/
def print_non_spaces : List Char → List Char × List Char
  | [] => ([], [])
  | c :: cs =>
    if isspace c then ([], c :: cs)
    else
      let p := print_non_spaces cs
      (c :: p.1, p.2)

/-- The copy loop of `print_enclosed`: emit characters until the closing
delimiter or the end of the line. -/
def scan_enclosed_body (endc : Char) : List Char → List Char × List Char
  | [] => ([], [])
  | c :: cs =>
    if c = endc then ([], c :: cs)
    else
      let p := scan_enclosed_body endc cs
      (c :: p.1, p.2)

/-- `print_enclosed`: require the opening delimiter, copy up to the closing
delimiter, require the closing delimiter.  Returns the output emitted
before any error, together with either the remaining input or the error
raised. -/
def print_enclosed (s : List Char) (op endc : Char) :
    List Char × Except Err (List Char) :=
  match s with
  | [] => ([], Except.error Err.wrongLineFormat)
  | c :: cs =>
    if c = op then
      let p := scan_enclosed_body endc cs
      match p.2 with
      | [] => (p.1, Except.error Err.wrongLineFormat)
      | _ :: rest => (p.1, Except.ok rest)
    else ([], Except.error Err.wrongLineFormat)

/-- `skip_spaces`: advance over whitespace. -/
def skip_spaces : List Char → List Char
  | [] => []
  | c :: cs => if isspace c then skip_spaces cs else c :: cs

/-- The fixed month table of `parse_month`. -/
def months : List String :=
  ["Jan", "Feb", "Mar", "Apr", "May", "Jun",
   "Jul", "Aug", "Sep", "Oct", "Nov", "Dec"]

/-- The linear search loop of `parse_month`: compare (`strcmp`) against
each table entry in order, returning the loop counter on the first exact
match. -/
def month_search (m : String) : Nat → List String → Option Nat
  | _, [] => none
  | i, x :: xs => if x = m then some i else month_search m (i + 1) xs

/-- `parse_month`: exact `strcmp` lookup in the month table; the 0-based
index on success, the dedicated month error otherwise. -/
def parse_month (m : String) : Except Err Nat :=
  match month_search m 0 months with
  | some i => Except.ok i
  | none => Except.error Err.failedToParseMonth

/-- C `isdigit`: an ASCII decimal digit `0`..`9`. -/
def is_ascii_digit (c : Char) : Bool :=
  48 ≤ c.toNat && c.toNat ≤ 57

/-- `sscanf` helper: consume at most `w` leading decimal digits. -/
def takeDigits : Nat → List Char → List Char × List Char
  | _, [] => ([], [])
  | w, c :: cs =>
    if w = 0 then ([], c :: cs)
    else if is_ascii_digit c then
      let p := takeDigits (w - 1) cs
      (c :: p.1, p.2)
    else ([], c :: cs)

/-- `sscanf` helper: consume at most `w` leading non-whitespace
characters. -/
def takeNonWs : Nat → List Char → List Char × List Char
  | _, [] => ([], [])
  | w, c :: cs =>
    if w = 0 then ([], c :: cs)
    else if isspace c then ([], c :: cs)
    else
      let p := takeNonWs (w - 1) cs
      (c :: p.1, p.2)

/-- Decimal value of a digit string. -/
def digitsToNat (ds : List Char) : Nat :=
  ds.foldl (fun a c => a * 10 + (c.toNat - 48)) 0

/-- One `%wd` conversion of `sscanf`: skip whitespace, read an optional
sign and then digits, at most `w` characters in total (the sign counts
toward the width), at least one digit. -/
def scanInt (w : Nat) (s : List Char) : Option (Int × List Char) :=
  match skip_spaces s with
  | [] => none
  | c :: cs =>
    if c = '+' then
      let p := takeDigits (w - 1) cs
      if p.1 = [] then none else some ((digitsToNat p.1 : Int), p.2)
    else if c = '-' then
      let p := takeDigits (w - 1) cs
      if p.1 = [] then none else some (-(digitsToNat p.1 : Int), p.2)
    else
      let p := takeDigits w (c :: cs)
      if p.1 = [] then none else some ((digitsToNat p.1 : Int), p.2)

/-- One `%ws` conversion of `sscanf`: skip whitespace, read at most `w`
non-whitespace characters, at least one. -/
def scanStr (w : Nat) (s : List Char) : Option (String × List Char) :=
  let p := takeNonWs w (skip_spaces s)
  if p.1 = [] then none else some (String.mk p.1, p.2)

/-- A literal non-whitespace character in an `sscanf` format: match the
next input character exactly, no whitespace skip. -/
def scanLit (c : Char) (s : List Char) : Option (List Char) :=
  match s with
  | [] => none
  | c2 :: cs => if c2 = c then some cs else none

/-- The seven values read by the `sscanf` call of
`parse_apache_datetime`. -/
structure ScanVals where
  mday : Int
  mon_s : String
  year : Int
  hour : Int
  minute : Int
  second : Int
  gmt : Int
deriving DecidableEq

/-- The `sscanf` call with format `"%2d/%3s/%4d:%2d:%2d:%2d %5d%n"`: all
seven conversions must succeed (`args_read == 7` in the source); the
returned list is the remaining input at the `%n` position. -/
def scan_datetime (s : List Char) : Option (ScanVals × List Char) :=
  (scanInt 2 s).bind fun p1 =>
  (scanLit '/' p1.2).bind fun s2 =>
  (scanStr 3 s2).bind fun p2 =>
  (scanLit '/' p2.2).bind fun s3 =>
  (scanInt 4 s3).bind fun p3 =>
  (scanLit ':' p3.2).bind fun s4 =>
  (scanInt 2 s4).bind fun p4 =>
  (scanLit ':' p4.2).bind fun s5 =>
  (scanInt 2 s5).bind fun p5 =>
  (scanLit ':' p5.2).bind fun s6 =>
  (scanInt 2 s6).bind fun p6 =>
  (scanInt 5 (skip_spaces p6.2)).bind fun p7 =>
  some (⟨p1.1, p2.1, p3.1, p4.1, p5.1, p6.1, p7.1⟩, p7.2)

/-- The `struct tm` fields the program uses. -/
structure Tm where
  tm_mday : Int
  tm_mon : Int
  tm_year : Int
  tm_hour : Int
  tm_min : Int
  tm_sec : Int
deriving DecidableEq

/-- The `struct tm` assembled by `parse_apache_datetime` from the scanned
values and the looked-up month index (`tm_year` holds the year minus
1900). -/
def mkTm (v : ScanVals) (mon : Nat) : Tm :=
  ⟨v.mday, (mon : Int), v.year - 1900, v.hour, v.minute, v.second⟩

/-- `parse_apache_datetime`: run the scan, fail with the datetime error
unless all seven conversions were read, subtract 1900 from the year, then
look up the month (which has its own error).  Returns the remaining input
after the consumed characters (`s + chars_read`). -/
def parse_apache_datetime (s : List Char) :
    Except Err (Tm × Int × List Char) :=
  match scan_datetime s with
  | none => Except.error Err.failedToParseApacheDatetime
  | some (v, rest) =>
    match parse_month v.mon_s with
    | Except.error e => Except.error e
    | Except.ok mon => Except.ok (mkTm v mon, v.gmt, rest)

/-- Decimal digits of a natural number, most significant first
(fuel-based so that it evaluates by kernel reduction). -/
def natDigitsAux : Nat → Nat → List Char
  | 0, _ => []
  | fuel + 1, n =>
    if n < 10 then [Char.ofNat (48 + n)]
    else natDigitsAux fuel (n / 10) ++ [Char.ofNat (48 + n % 10)]

/-- Decimal rendering of a natural number. -/
def natToChars (n : Nat) : List Char :=
  natDigitsAux (n + 1) n

/-- `printf` zero padding to minimum width `w` for a non-negative value
(`%0wd`): the digits, preceded by as many zeros as needed to reach `w`. -/
def printf_pad0 (w : Nat) (n : Nat) : List Char :=
  let ds := natToChars n
  List.replicate (w - ds.length) '0' ++ ds

/-- `%0wd` for a possibly negative value: the zero padding counts the
sign, which precedes the zeros. -/
def printf_int_pad0 (w : Nat) (i : Int) : List Char :=
  if 0 ≤ i then printf_pad0 w i.toNat
  else '-' :: printf_pad0 (w - 1) (-i).toNat

/-- `strftime` with format `"%Y-%m-%dT%H:%M:%S"`: calendar fields rendered
zero-padded (year to 4 digits, the rest to 2 digits), month rendered as
`tm_mon + 1`, year as `tm_year + 1900`; no range validation and no
timezone shift. -/
def strftime_iso (t : Tm) : List Char :=
  printf_int_pad0 4 (t.tm_year + 1900) ++ '-' ::
  (printf_int_pad0 2 (t.tm_mon + 1) ++ '-' ::
  (printf_int_pad0 2 t.tm_mday ++ 'T' ::
  (printf_int_pad0 2 t.tm_hour ++ ':' ::
  (printf_int_pad0 2 t.tm_min ++ ':' ::
  printf_int_pad0 2 t.tm_sec))))

/-- The offset rendering: `printf("+%04d", g)` for a non-negative scanned
offset, `printf("%05d", g)` (sign plus four zero-padded digits) for a
negative one. -/
def print_gmt_offset (g : Int) : List Char :=
  if 0 ≤ g then '+' :: printf_pad0 4 g.toNat
  else '-' :: printf_pad0 4 (-g).toNat

/-- `print_timestamp_as_iso`: require `[`, parse the datetime, require
`]`, render through `strftime` into a 32-byte buffer (error when the
rendered string plus its terminator does not fit), then print the
rendered calendar string followed by the re-rendered offset.  Returns the
emitted output and either the remaining input or the error raised; every
error in this function is raised before any output is emitted. -/
def print_timestamp_as_iso (s : List Char) :
    List Char × Except Err (List Char) :=
  match s with
  | [] => ([], Except.error Err.wrongLineFormat)
  | c :: cs =>
    if c = '[' then
      match parse_apache_datetime cs with
      | Except.error e => ([], Except.error e)
      | Except.ok (t, gmt, rest) =>
        match rest with
        | [] => ([], Except.error Err.wrongLineFormat)
        | c2 :: rest2 =>
          if c2 = ']' then
            let buf := strftime_iso t
            if 32 ≤ buf.length + 1 then
              ([], Except.error Err.timeBufferSizeExceeded)
            else (buf ++ print_gmt_offset gmt, Except.ok rest2)
          else ([], Except.error Err.wrongLineFormat)
    else ([], Except.error Err.wrongLineFormat)

/-- Streaming state of one line: output emitted so far, remaining input,
and the error raised if any.  The program terminates at the first error,
so every later step is a no-op once `err` is set. -/
structure PState where
  out : List Char
  rest : List Char
  err : Option Err
deriving DecidableEq

/-- A `putchar` of fixed characters (the tab and newline separators). -/
def emit (cs : List Char) (st : PState) : PState :=
  match st.err with
  | some _ => st
  | none => { st with out := st.out ++ cs }

/-- One `print_non_spaces` step of the loop body. -/
def doNonSpaces (st : PState) : PState :=
  match st.err with
  | some _ => st
  | none =>
    let p := print_non_spaces st.rest
    { st with out := st.out ++ p.1, rest := p.2 }

/-- One `skip_spaces` step of the loop body. -/
def doSkipSpaces (st : PState) : PState :=
  match st.err with
  | some _ => st
  | none => { st with rest := skip_spaces st.rest }

/-- One `print_enclosed` step of the loop body. -/
def doEnclosed (op endc : Char) (st : PState) : PState :=
  match st.err with
  | some _ => st
  | none =>
    match print_enclosed st.rest op endc with
    | (o, Except.ok r) => ⟨st.out ++ o, r, none⟩
    | (o, Except.error e) => ⟨st.out ++ o, st.rest, some e⟩

/-- The `print_timestamp_as_iso` step of the loop body. -/
def doTimestamp (st : PState) : PState :=
  match st.err with
  | some _ => st
  | none =>
    match print_timestamp_as_iso st.rest with
    | (o, Except.ok r) => ⟨st.out ++ o, r, none⟩
    | (o, Except.error e) => ⟨st.out ++ o, st.rest, some e⟩

/-- The final check of the loop body: the character after the agent field
must be the line's newline, which is then emitted. -/
def doFinalNewline (st : PState) : PState :=
  match st.err with
  | some _ => st
  | none =>
    match st.rest with
    | '\n' :: _ => { st with out := st.out ++ ['\n'] }
    | _ => { st with err := some Err.wrongLineFormat }

/-- The per-line body of the main loop: a blank line (first character a
newline) passes through as a bare newline; otherwise the nine fields are
emitted in order, tab-separated, and the line must end exactly at its
newline. -/
def process_line (line : List Char) : PState :=
  match line with
  | '\n' :: _ => ⟨['\n'], line, none⟩
  | _ =>
    let st : PState := ⟨[], line, none⟩
    let st := doNonSpaces st
    let st := doSkipSpaces st
    let st := emit ['\t'] st
    let st := doNonSpaces st
    let st := doSkipSpaces st
    let st := emit ['\t'] st
    let st := doNonSpaces st
    let st := doSkipSpaces st
    let st := emit ['\t'] st
    let st := doTimestamp st
    let st := doSkipSpaces st
    let st := emit ['\t'] st
    let st := doEnclosed '"' '"' st
    let st := doSkipSpaces st
    let st := emit ['\t'] st
    let st := doNonSpaces st
    let st := doSkipSpaces st
    let st := emit ['\t'] st
    let st := doNonSpaces st
    let st := doSkipSpaces st
    let st := emit ['\t'] st
    let st := doEnclosed '"' '"' st
    let st := doSkipSpaces st
    let st := emit ['\t'] st
    let st := doEnclosed '"' '"' st
    doFinalNewline st

/-- `fgets` with a 4096-byte buffer: read at most 4095 characters from the
stream, stopping after a newline.  Returns the line read and the rest of
the stream. -/
def fgets_chunk : Nat → List Char → List Char × List Char
  | _, [] => ([], [])
  | w, c :: cs =>
    if w = 0 then ([], c :: cs)
    else if c = '\n' then ([c], cs)
    else
      let p := fgets_chunk (w - 1) cs
      (c :: p.1, p.2)

/-- The main loop: read a line, fail with the length error when it holds
no newline (the `memchr` check), process it, stop at the first error; end
of input is success.  The fuel argument only bounds the recursion and is
chosen large enough by the caller. -/
def run_lines : Nat → List Char → List Char × Option Err
  | 0, _ => ([], none)
  | _, [] => ([], none)
  | fuel + 1, c :: cs =>
    let p := fgets_chunk 4095 (c :: cs)
    if p.1.contains '\n' then
      let st := process_line p.1
      match st.err with
      | some e => (st.out, some e)
      | none =>
        let q := run_lines fuel p.2
        (st.out ++ q.1, q.2)
    else ([], some Err.lineIsTooLong)

/-- The fixed header line printed before the loop. -/
def header : List Char :=
  ("host\tidentity\tuser\ttime\trequest\tstatus\tbytes\treferrer\tagent\n").data

/-- The whole program on a given input stream: header first, then the line
loop.  Returns all output emitted and the error that terminated the run,
if any. -/
def main_run (input : List Char) : List Char × Option Err :=
  let p := run_lines (input.length + 1) input
  (header ++ p.1, p.2)

/-! Auxiliary lemmas about the decimal renderer. -/

lemma natDigitsAux_length_le :
    ∀ (fuel n k : Nat), n < fuel → 1 ≤ k → n < 10 ^ k →
      (natDigitsAux fuel n).length ≤ k := by
  intro fuel
  induction fuel with
  | zero => intro n k h; omega
  | succ fuel ih =>
    intro n k hn hk hpow
    rw [natDigitsAux]
    by_cases h10 : n < 10
    · rw [if_pos h10]
      simpa using hk
    · rw [if_neg h10]
      rw [List.length_append]
      have hk2 : 2 ≤ k := by
        rcases Nat.lt_or_ge k 2 with hlt | hge
        · have hk1 : k = 1 := by omega
          subst hk1
          norm_num at hpow
          omega
        · exact hge
      have hdiv : n / 10 < fuel := by
        have := Nat.div_lt_self (show 0 < n by omega) (show 1 < 10 by omega)
        omega
      have hpow2 : n / 10 < 10 ^ (k - 1) := by
        rw [Nat.div_lt_iff_lt_mul (show 0 < 10 by omega)]
        calc n < 10 ^ k := hpow
        _ = 10 ^ (k - 1) * 10 := by
              rw [← Nat.pow_succ]
              congr 1
              omega
      have hrec := ih (n / 10) (k - 1) hdiv (by omega) hpow2
      simp only [List.length_singleton]
      omega

lemma natToChars_length_le (n k : Nat) (hk : 1 ≤ k) (h : n < 10 ^ k) :
    (natToChars n).length ≤ k :=
  natDigitsAux_length_le (n + 1) n k (Nat.lt_succ_self n) hk h

lemma printf_pad0_length (w n : Nat) (hw : 1 ≤ w) (h : n < 10 ^ w) :
    (printf_pad0 w n).length = w := by
  have hle := natToChars_length_le n w hw h
  simp only [printf_pad0, List.length_append, List.length_replicate]
  omega

lemma is_ascii_digit_ofNat (d : Nat) (h : d < 10) :
    is_ascii_digit (Char.ofNat (48 + d)) = true := by
  interval_cases d <;> decide

lemma natDigitsAux_all_digits :
    ∀ (fuel n : Nat), ∀ c ∈ natDigitsAux fuel n, is_ascii_digit c = true := by
  intro fuel
  induction fuel with
  | zero => intro n c hc; simp [natDigitsAux] at hc
  | succ fuel ih =>
    intro n c hc
    rw [natDigitsAux] at hc
    by_cases h10 : n < 10
    · rw [if_pos h10] at hc
      simp only [List.mem_singleton] at hc
      subst hc
      exact is_ascii_digit_ofNat n h10
    · rw [if_neg h10] at hc
      rw [List.mem_append] at hc
      rcases hc with hc | hc
      · exact ih (n / 10) c hc
      · simp only [List.mem_singleton] at hc
        subst hc
        exact is_ascii_digit_ofNat (n % 10) (Nat.mod_lt n (by omega))

lemma printf_pad0_all_digits (w n : Nat) :
    ∀ c ∈ printf_pad0 w n, is_ascii_digit c = true := by
  intro c hc
  simp only [printf_pad0] at hc
  rw [List.mem_append] at hc
  rcases hc with hc | hc
  · rw [List.mem_replicate] at hc
    rw [hc.2]
    decide
  · exact natDigitsAux_all_digits (n + 1) n c hc

/-! Cursor-monotonicity lemmas: every tokenizing step returns a suffix of
its input, the remaining-input counterpart of "the cursor never
rewinds". -/

lemma print_non_spaces_suffix (s : List Char) : (print_non_spaces s).2 <:+ s := by
  induction s with
  | nil => exact List.suffix_rfl
  | cons c cs ih =>
    rw [print_non_spaces]
    by_cases h : isspace c = true
    · rw [if_pos h]
    · rw [if_neg h]
      exact ih.trans (List.suffix_cons c cs)

lemma skip_spaces_suffix (s : List Char) : skip_spaces s <:+ s := by
  induction s with
  | nil => exact List.suffix_rfl
  | cons c cs ih =>
    rw [skip_spaces]
    by_cases h : isspace c = true
    · rw [if_pos h]
      exact ih.trans (List.suffix_cons c cs)
    · rw [if_neg h]

lemma scan_enclosed_body_suffix (endc : Char) (s : List Char) :
    (scan_enclosed_body endc s).2 <:+ s := by
  induction s with
  | nil => exact List.suffix_rfl
  | cons c cs ih =>
    rw [scan_enclosed_body]
    by_cases h : c = endc
    · rw [if_pos h]
    · rw [if_neg h]
      exact ih.trans (List.suffix_cons c cs)

lemma suffix_of_cons_suffix {c : Char} {l s : List Char} (h : c :: l <:+ s) :
    l <:+ s :=
  (List.suffix_cons c l).trans h

lemma print_enclosed_ok_suffix {s o r : List Char} {op endc : Char}
    (h : print_enclosed s op endc = (o, Except.ok r)) : r <:+ s := by
  cases s with
  | nil => simp [print_enclosed] at h
  | cons c cs =>
    simp only [print_enclosed] at h
    by_cases hc : c = op
    · rw [if_pos hc] at h
      have hb := scan_enclosed_body_suffix endc cs
      cases hb2 : (scan_enclosed_body endc cs).2 with
      | nil =>
        rw [hb2] at h
        simp at h
      | cons x xs =>
        rw [hb2] at h
        rw [hb2] at hb
        simp only [Prod.mk.injEq, Except.ok.injEq] at h
        rw [← h.2]
        exact (suffix_of_cons_suffix hb).trans (List.suffix_cons c cs)
    · rw [if_neg hc] at h
      simp at h

lemma takeDigits_suffix (w : Nat) (s : List Char) : (takeDigits w s).2 <:+ s := by
  induction s generalizing w with
  | nil => exact List.suffix_rfl
  | cons c cs ih =>
    rw [takeDigits]
    by_cases h0 : w = 0
    · rw [if_pos h0]
    · rw [if_neg h0]
      by_cases hd : is_ascii_digit c = true
      · rw [if_pos hd]
        exact (ih (w - 1)).trans (List.suffix_cons c cs)
      · rw [if_neg hd]

lemma takeNonWs_suffix (w : Nat) (s : List Char) : (takeNonWs w s).2 <:+ s := by
  induction s generalizing w with
  | nil => exact List.suffix_rfl
  | cons c cs ih =>
    rw [takeNonWs]
    by_cases h0 : w = 0
    · rw [if_pos h0]
    · rw [if_neg h0]
      by_cases hw : isspace c = true
      · rw [if_pos hw]
      · rw [if_neg hw]
        exact (ih (w - 1)).trans (List.suffix_cons c cs)

lemma scanInt_suffix {w : Nat} {p : Int × List Char} {s : List Char}
    (h : scanInt w s = some p) : p.2 <:+ s := by
  have hss := skip_spaces_suffix s
  rw [scanInt] at h
  cases hs1 : skip_spaces s with
  | nil =>
    rw [hs1] at h
    cases h
  | cons c cs =>
    rw [hs1] at h hss
    simp only at h
    have hcs : cs <:+ s := (List.suffix_cons c cs).trans hss
    by_cases hp : c = '+'
    · rw [if_pos hp] at h
      by_cases hnil : (takeDigits (w - 1) cs).1 = []
      · rw [if_pos hnil] at h
        cases h
      · rw [if_neg hnil] at h
        injection h with h
        rw [← h]
        exact (takeDigits_suffix (w - 1) cs).trans hcs
    · rw [if_neg hp] at h
      by_cases hm : c = '-'
      · rw [if_pos hm] at h
        by_cases hnil : (takeDigits (w - 1) cs).1 = []
        · rw [if_pos hnil] at h
          cases h
        · rw [if_neg hnil] at h
          injection h with h
          rw [← h]
          exact (takeDigits_suffix (w - 1) cs).trans hcs
      · rw [if_neg hm] at h
        by_cases hnil : (takeDigits w (c :: cs)).1 = []
        · rw [if_pos hnil] at h
          cases h
        · rw [if_neg hnil] at h
          injection h with h
          rw [← h]
          exact (takeDigits_suffix w (c :: cs)).trans hss

lemma scanStr_suffix {w : Nat} {p : String × List Char} {s : List Char}
    (h : scanStr w s = some p) : p.2 <:+ s := by
  have hss := skip_spaces_suffix s
  simp only [scanStr] at h
  by_cases hnil : (takeNonWs w (skip_spaces s)).1 = []
  · rw [if_pos hnil] at h
    cases h
  · rw [if_neg hnil] at h
    injection h with h
    rw [← h]
    exact (takeNonWs_suffix w (skip_spaces s)).trans hss

lemma scanLit_suffix {c : Char} {s r : List Char} (h : scanLit c s = some r) :
    r <:+ s := by
  cases s with
  | nil => cases h
  | cons c2 cs =>
    simp only [scanLit] at h
    by_cases hc : c2 = c
    · rw [if_pos hc] at h
      injection h with h
      rw [← h]
      exact List.suffix_cons c2 cs
    · rw [if_neg hc] at h
      cases h

/-! Value-range lemmas for the scanned fields. -/

lemma takeDigits_length_le (w : Nat) (s : List Char) :
    (takeDigits w s).1.length ≤ w := by
  induction s generalizing w with
  | nil => simp [takeDigits]
  | cons c cs ih =>
    rw [takeDigits]
    by_cases h0 : w = 0
    · rw [if_pos h0]
      simp
    · rw [if_neg h0]
      by_cases hd : is_ascii_digit c = true
      · rw [if_pos hd]
        have := ih (w - 1)
        simp
        omega
      · rw [if_neg hd]
        simp

lemma takeDigits_all_digits (w : Nat) (s : List Char) :
    ∀ c ∈ (takeDigits w s).1, is_ascii_digit c = true := by
  induction s generalizing w with
  | nil => simp [takeDigits]
  | cons c cs ih =>
    rw [takeDigits]
    by_cases h0 : w = 0
    · rw [if_pos h0]
      simp
    · rw [if_neg h0]
      by_cases hd : is_ascii_digit c = true
      · rw [if_pos hd]
        intro x hx
        have hx2 : x = c ∨ x ∈ (takeDigits (w - 1) cs).1 := by simpa using hx
        rcases hx2 with rfl | hx2
        · exact hd
        · exact ih (w - 1) x hx2
      · rw [if_neg hd]
        simp

lemma digitsToNat_lt (ds : List Char) (h : ∀ c ∈ ds, is_ascii_digit c = true) :
    digitsToNat ds < 10 ^ ds.length := by
  suffices haux : ∀ (l : List Char) (a : Nat), (∀ c ∈ l, is_ascii_digit c = true) →
      l.foldl (fun x c => x * 10 + (c.toNat - 48)) a < (a + 1) * 10 ^ l.length by
    have := haux ds 0 h
    simpa [digitsToNat] using this
  intro l
  induction l with
  | nil =>
    intro a _
    simp only [List.foldl_nil, List.length_nil, pow_zero, mul_one]
    omega
  | cons c cs ih =>
    intro a hl
    rw [List.foldl_cons]
    have hc : is_ascii_digit c = true := hl c (List.mem_cons_self c cs)
    have hc2 : c.toNat ≤ 57 := by
      simp only [is_ascii_digit, Bool.and_eq_true, decide_eq_true_eq] at hc
      exact hc.2
    have h1 := ih (a * 10 + (c.toNat - 48)) (fun x hx => hl x (List.mem_cons_of_mem c hx))
    have hstep : a * 10 + (c.toNat - 48) + 1 ≤ (a + 1) * 10 := by omega
    have h2 : (a * 10 + (c.toNat - 48) + 1) * 10 ^ cs.length ≤ ((a + 1) * 10) * 10 ^ cs.length :=
      Nat.mul_le_mul_right _ hstep
    have h3 : ((a + 1) * 10) * 10 ^ cs.length = (a + 1) * 10 ^ (c :: cs).length := by
      rw [List.length_cons, pow_succ]
      ring
    omega

lemma scanInt_bound {w : Nat} {p : Int × List Char} {s : List Char}
    (h : scanInt w s = some p) :
    -((10 : Int) ^ (w - 1)) < p.1 ∧ p.1 < (10 : Int) ^ w := by
  have hnat : ∀ (u : Nat) (cs : List Char),
      (digitsToNat (takeDigits u cs).1 : Int) < (10 : Int) ^ u := by
    intro u cs
    have h1 := digitsToNat_lt (takeDigits u cs).1 (takeDigits_all_digits u cs)
    have h2 := takeDigits_length_le u cs
    have h3 : digitsToNat (takeDigits u cs).1 < 10 ^ u :=
      lt_of_lt_of_le h1 (Nat.pow_le_pow_right (by omega) h2)
    calc (digitsToNat (takeDigits u cs).1 : Int) < ((10 ^ u : Nat) : Int) := by
          exact_mod_cast h3
    _ = (10 : Int) ^ u := by push_cast; ring
  have hmono : (10 : Int) ^ (w - 1) ≤ (10 : Int) ^ w :=
    pow_le_pow_right (by norm_num) (by omega)
  have hw1 : (0 : Int) < (10 : Int) ^ (w - 1) := by positivity
  have hw2 : (0 : Int) < (10 : Int) ^ w := by positivity
  rw [scanInt] at h
  cases hs1 : skip_spaces s with
  | nil =>
    rw [hs1] at h
    cases h
  | cons c cs =>
    rw [hs1] at h
    simp only at h
    by_cases hp : c = '+'
    · rw [if_pos hp] at h
      by_cases hnil : (takeDigits (w - 1) cs).1 = []
      · rw [if_pos hnil] at h
        cases h
      · rw [if_neg hnil] at h
        injection h with h
        have hv : (digitsToNat (takeDigits (w - 1) cs).1 : Int) = p.1 :=
          congrArg Prod.fst h
        have hub := hnat (w - 1) cs
        have hnn : (0 : Int) ≤ (digitsToNat (takeDigits (w - 1) cs).1 : Int) := by positivity
        rw [← hv]
        exact ⟨by linarith, by linarith⟩
    · rw [if_neg hp] at h
      by_cases hm : c = '-'
      · rw [if_pos hm] at h
        by_cases hnil : (takeDigits (w - 1) cs).1 = []
        · rw [if_pos hnil] at h
          cases h
        · rw [if_neg hnil] at h
          injection h with h
          have hv : -(digitsToNat (takeDigits (w - 1) cs).1 : Int) = p.1 :=
            congrArg Prod.fst h
          have hub := hnat (w - 1) cs
          have hnn : (0 : Int) ≤ (digitsToNat (takeDigits (w - 1) cs).1 : Int) := by positivity
          rw [← hv]
          exact ⟨by linarith, by linarith⟩
      · rw [if_neg hm] at h
        by_cases hnil : (takeDigits w (c :: cs)).1 = []
        · rw [if_pos hnil] at h
          cases h
        · rw [if_neg hnil] at h
          injection h with h
          have hv : (digitsToNat (takeDigits w (c :: cs)).1 : Int) = p.1 :=
            congrArg Prod.fst h
          have hub := hnat w (c :: cs)
          have hnn : (0 : Int) ≤ (digitsToNat (takeDigits w (c :: cs)).1 : Int) := by positivity
          rw [← hv]
          exact ⟨by linarith, by linarith⟩

lemma scan_datetime_inv {s r : List Char} {v : ScanVals}
    (h : scan_datetime s = some (v, r)) :
    (-10 < v.mday ∧ v.mday < 100) ∧
    (-1000 < v.year ∧ v.year < 10000) ∧
    (-10 < v.hour ∧ v.hour < 100) ∧
    (-10 < v.minute ∧ v.minute < 100) ∧
    (-10 < v.second ∧ v.second < 100) ∧
    (-10000 < v.gmt ∧ v.gmt < 100000) ∧
    r <:+ s := by
  rw [scan_datetime] at h
  simp only [Option.bind_eq_some] at h
  obtain ⟨p1, h1, s2, hl1, p2, h2, s3, hl2, p3, h3, s4, hl3, p4, h4, s5, hl4,
    p5, h5, s6, hl5, p6, h6, p7, h7, hfin⟩ := h
  simp only [Option.some.injEq, Prod.mk.injEq] at hfin
  obtain ⟨hv, hr⟩ := hfin
  subst hv
  subst hr
  have b1 := scanInt_bound h1
  have b3 := scanInt_bound h3
  have b4 := scanInt_bound h4
  have b5 := scanInt_bound h5
  have b6 := scanInt_bound h6
  have b7 := scanInt_bound h7
  norm_num at b1 b3 b4 b5 b6 b7
  have t1 : p1.2 <:+ s := scanInt_suffix h1
  have t2 : s2 <:+ p1.2 := scanLit_suffix hl1
  have t3 : p2.2 <:+ s2 := scanStr_suffix h2
  have t4 : s3 <:+ p2.2 := scanLit_suffix hl2
  have t5 : p3.2 <:+ s3 := scanInt_suffix h3
  have t6 : s4 <:+ p3.2 := scanLit_suffix hl3
  have t7 : p4.2 <:+ s4 := scanInt_suffix h4
  have t8 : s5 <:+ p4.2 := scanLit_suffix hl4
  have t9 : p5.2 <:+ s5 := scanInt_suffix h5
  have t10 : s6 <:+ p5.2 := scanLit_suffix hl5
  have t11 : p6.2 <:+ s6 := scanInt_suffix h6
  have t12 : skip_spaces p6.2 <:+ p6.2 := skip_spaces_suffix p6.2
  have t13 : p7.2 <:+ skip_spaces p6.2 := scanInt_suffix h7
  exact ⟨b1, b3, b4, b5, b6, b7,
    t13.trans (t12.trans (t11.trans (t10.trans (t9.trans (t8.trans (t7.trans
      (t6.trans (t5.trans (t4.trans (t3.trans (t2.trans t1)))))))))))⟩

lemma parse_apache_datetime_ok_suffix {s : List Char} {t : Tm} {g : Int}
    {rest : List Char}
    (h : parse_apache_datetime s = Except.ok (t, g, rest)) : rest <:+ s := by
  rw [parse_apache_datetime] at h
  cases hsc : scan_datetime s with
  | none =>
    rw [hsc] at h
    cases h
  | some p =>
    obtain ⟨v, r⟩ := p
    rw [hsc] at h
    simp only at h
    cases hm : parse_month v.mon_s with
    | error e =>
      rw [hm] at h
      simp at h
    | ok mon =>
      rw [hm] at h
      simp only [Except.ok.injEq, Prod.mk.injEq] at h
      obtain ⟨-, -, hr⟩ := h
      rw [← hr]
      exact (scan_datetime_inv hsc).2.2.2.2.2.2

lemma print_timestamp_as_iso_ok_suffix {s o r : List Char}
    (h : print_timestamp_as_iso s = (o, Except.ok r)) : r <:+ s := by
  cases s with
  | nil => simp [print_timestamp_as_iso] at h
  | cons c cs =>
    rw [print_timestamp_as_iso] at h
    by_cases hc : c = '['
    · rw [if_pos hc] at h
      cases hp : parse_apache_datetime cs with
      | error e =>
        rw [hp] at h
        simp at h
      | ok q =>
        obtain ⟨t, g, rest⟩ := q
        rw [hp] at h
        simp only at h
        cases rest with
        | nil => simp at h
        | cons c2 rest2 =>
          simp only at h
          by_cases hc2 : c2 = ']'
          · rw [if_pos hc2] at h
            by_cases hbuf : 32 ≤ (strftime_iso t).length + 1
            · rw [if_pos hbuf] at h
              simp at h
            · rw [if_neg hbuf] at h
              simp only [Prod.mk.injEq, Except.ok.injEq] at h
              obtain ⟨-, hr⟩ := h
              rw [← hr]
              have hsub : c2 :: rest2 <:+ cs := parse_apache_datetime_ok_suffix hp
              exact (suffix_of_cons_suffix hsub).trans (List.suffix_cons c cs)
          · rw [if_neg hc2] at h
            simp at h
    · rw [if_neg hc] at h
      simp at h

/-! Month-table and rendering-length lemmas. -/

lemma month_search_lt (m : String) :
    ∀ (l : List String) (i j : Nat), month_search m i l = some j → j < i + l.length := by
  intro l
  induction l with
  | nil =>
    intro i j h
    simp [month_search] at h
  | cons x xs ih =>
    intro i j h
    rw [month_search] at h
    by_cases hx : x = m
    · rw [if_pos hx] at h
      injection h with h
      subst h
      simp
    · rw [if_neg hx] at h
      have := ih (i + 1) j h
      simp only [List.length_cons]
      omega

lemma parse_month_lt {m : String} {i : Nat} (h : parse_month m = Except.ok i) :
    i < 12 := by
  rw [parse_month] at h
  cases hm : month_search m 0 months with
  | none =>
    rw [hm] at h
    cases h
  | some j =>
    rw [hm] at h
    injection h with h
    subst h
    have := month_search_lt m months 0 j hm
    simpa [months] using this

lemma printf_int_pad0_length (w : Nat) (i : Int) (hw : 1 ≤ w)
    (hlo : -((10 : Int) ^ (w - 1)) < i) (hhi : i < (10 : Int) ^ w) :
    (printf_int_pad0 w i).length = w := by
  rw [printf_int_pad0]
  by_cases hi : 0 ≤ i
  · rw [if_pos hi]
    apply printf_pad0_length w i.toNat hw
    have hpw : (10 : Int) ^ w = ((10 ^ w : Nat) : Int) := by push_cast; ring
    have h2 : i < ((10 ^ w : Nat) : Int) := by rw [← hpw]; exact hhi
    omega
  · rw [if_neg hi]
    rcases Nat.lt_or_ge w 2 with hw2 | hw2
    · have hw1 : w = 1 := by omega
      subst hw1
      norm_num at hlo
      exfalso
      omega
    · have hlen : (printf_pad0 (w - 1) (-i).toNat).length = w - 1 := by
        apply printf_pad0_length (w - 1) _ (by omega)
        have hpw : (10 : Int) ^ (w - 1) = ((10 ^ (w - 1) : Nat) : Int) := by
          push_cast; ring
        have h2 : -i < ((10 ^ (w - 1) : Nat) : Int) := by rw [← hpw]; linarith
        omega
      simp only [List.length_cons, hlen]
      omega

lemma strftime_iso_length (t : Tm)
    (h1 : -1000 < t.tm_year + 1900) (h2 : t.tm_year + 1900 < 10000)
    (h3 : 0 ≤ t.tm_mon) (h4 : t.tm_mon ≤ 11)
    (h5 : -10 < t.tm_mday) (h6 : t.tm_mday < 100)
    (h7 : -10 < t.tm_hour) (h8 : t.tm_hour < 100)
    (h9 : -10 < t.tm_min) (h10 : t.tm_min < 100)
    (h11 : -10 < t.tm_sec) (h12 : t.tm_sec < 100) :
    (strftime_iso t).length = 19 := by
  have e1 : (printf_int_pad0 4 (t.tm_year + 1900)).length = 4 :=
    printf_int_pad0_length 4 _ (by omega) (by norm_num; omega) (by norm_num; omega)
  have e2 : (printf_int_pad0 2 (t.tm_mon + 1)).length = 2 :=
    printf_int_pad0_length 2 _ (by omega) (by norm_num; omega) (by norm_num; omega)
  have e3 : (printf_int_pad0 2 t.tm_mday).length = 2 :=
    printf_int_pad0_length 2 _ (by omega) (by norm_num; omega) (by norm_num; omega)
  have e4 : (printf_int_pad0 2 t.tm_hour).length = 2 :=
    printf_int_pad0_length 2 _ (by omega) (by norm_num; omega) (by norm_num; omega)
  have e5 : (printf_int_pad0 2 t.tm_min).length = 2 :=
    printf_int_pad0_length 2 _ (by omega) (by norm_num; omega) (by norm_num; omega)
  have e6 : (printf_int_pad0 2 t.tm_sec).length = 2 :=
    printf_int_pad0_length 2 _ (by omega) (by norm_num; omega) (by norm_num; omega)
  simp only [strftime_iso, List.length_append, List.length_cons, e1, e2, e3, e4, e5, e6]

/-! Claim theorems. -/

/-- C1: for the spec's example input line, the per-line processing emits
exactly the nine tab-separated fields host, identity, user, time, request,
status, bytes, referrer, agent with quotes and brackets stripped, followed
by a newline, and raises no error. -/
theorem C1_end_to_end :
    (process_line ("127.0.0.1 - frank [10/Oct/2000:13:55:36 -0700] \"GET /apache_pb.gif HTTP/1.0\" 200 2326 \"http://ref/\" \"Mozilla/5.0\"\n").data).out =
      ("127.0.0.1\t-\tfrank\t2000-10-10T13:55:36-0700\tGET /apache_pb.gif HTTP/1.0\t200\t2326\thttp://ref/\tMozilla/5.0\n").data ∧
    (process_line ("127.0.0.1 - frank [10/Oct/2000:13:55:36 -0700] \"GET /apache_pb.gif HTTP/1.0\" 200 2326 \"http://ref/\" \"Mozilla/5.0\"\n").data).err = none := by
  decide

/-- C2 counterexample: the timestamp normalizer does not map
`[10/Oct/2023:13:55:36 +0300]` to `2023-10-13T13:55:36+0300` as the claim
states: the day field of the input is 10, so the rendered day is 10, not
13 (13 is the hour). -/
theorem C2_counterexample :
    (print_timestamp_as_iso (("[10/Oct/2023:13:55:36 +0300]").data)).1 ≠
      ("2023-10-13T13:55:36+0300").data := by
  decide

/-- C2 amended: the normalizer maps `[10/Oct/2023:13:55:36 +0300]` to
`2023-10-10T13:55:36+0300`, and the rendered offset sign and width are
forced regardless of input sign style: a scanned offset `-0500` renders as
`-0500` and a scanned offset `+0000` renders as `+0000`. -/
theorem C2_amended_roundtrip :
    print_timestamp_as_iso (("[10/Oct/2023:13:55:36 +0300]").data) =
      (("2023-10-10T13:55:36+0300").data, Except.ok []) ∧
    print_timestamp_as_iso (("[10/Oct/2023:13:55:36 -0500]").data) =
      (("2023-10-10T13:55:36-0500").data, Except.ok []) ∧
    print_timestamp_as_iso (("[10/Oct/2023:13:55:36 +0000]").data) =
      (("2023-10-10T13:55:36+0000").data, Except.ok []) := by
  decide

/-- C4 counterexample: a 1-digit day is not a hard error: `sscanf` field
widths are maxima, so `9/Oct/2023:13:55:36 +0300` scans successfully with
day 9 and all seven sub-fields recognized. -/
theorem C4_counterexample :
    parse_apache_datetime (("9/Oct/2023:13:55:36 +0300]").data) =
      Except.ok (⟨9, 9, 123, 13, 55, 36⟩, 300, ("]").data) := by
  decide

/-- C4 amended: each sub-field scans at up to its fixed width, narrower
fields included: a 1-digit day and a 3-digit year parse successfully; a
day wider than 2 digits breaks the following literal match and is a hard
error, and recognizing fewer than 7 sub-fields is a hard error. -/
theorem C4_amended_widths :
    parse_apache_datetime (("9/Oct/2023:13:55:36 +0300]").data) =
      Except.ok (⟨9, 9, 123, 13, 55, 36⟩, 300, ("]").data) ∧
    parse_apache_datetime (("10/Oct/999:13:55:36 +0300]").data) =
      Except.ok (⟨10, 9, -901, 13, 55, 36⟩, 300, ("]").data) ∧
    parse_apache_datetime (("123/Oct/2023:13:55:36 +0300]").data) =
      Except.error Err.failedToParseApacheDatetime ∧
    parse_apache_datetime (("10/Oct/2023]").data) =
      Except.error Err.failedToParseApacheDatetime := by
  decide

/-- C7: month matching is exact and case-sensitive: `jan` is rejected with
the dedicated month-parse error (an error distinct from the general format
and datetime errors, also raised through the full timestamp path), while
`Jan` yields index 0 and `Dec` yields index 11. -/
theorem C7_month_case_sensitivity :
    parse_month "jan" = Except.error Err.failedToParseMonth ∧
    parse_month "Jan" = Except.ok 0 ∧
    parse_month "Dec" = Except.ok 11 ∧
    Err.failedToParseMonth ≠ Err.wrongLineFormat ∧
    Err.failedToParseMonth ≠ Err.failedToParseApacheDatetime ∧
    (print_timestamp_as_iso (("[10/jan/2023:13:55:36 +0300]").data)).2 =
      Except.error Err.failedToParseMonth := by
  decide

/-- C5 counterexample: the offset `99999` scans successfully (five digits,
no sign, within the `%5d` width) and renders as `+99999`: five digits, not
exactly four, so the rendered offset width is a minimum, not exact. -/
theorem C5_counterexample :
    print_timestamp_as_iso (("[10/Oct/2000:13:55:36 99999]").data) =
      (("2000-10-10T13:55:36+99999").data, Except.ok []) ∧
    (print_gmt_offset 99999).length ≠ 5 := by
  decide

/-- C3 counterexample: on a line whose request field lacks its closing
quote the program does raise the wrong-line-format error, but it does not
produce "no output for that line": the fields before the request and the
request text itself were already streamed to the output. -/
theorem C3_counterexample :
    (process_line (("a b c [10/Oct/2000:13:55:36 -0700] \"GET / HTTP/1.1\n").data)).err =
      some Err.wrongLineFormat ∧
    (process_line (("a b c [10/Oct/2000:13:55:36 -0700] \"GET / HTTP/1.1\n").data)).out ≠
      [] := by
  decide

/-- C6: an input line consisting of only a newline emits a bare empty
output line (a single newline), raises no error, and the main loop
continues with the next line. -/
theorem C6_blank_line (rest : List Char) (f : Nat) :
    (process_line ['\n']).out = ['\n'] ∧
    (process_line ['\n']).err = none ∧
    run_lines (f + 1) ('\n' :: rest) =
      ('\n' :: (run_lines f rest).1, (run_lines f rest).2) := by
  refine ⟨by decide, by decide, ?_⟩
  have hc : fgets_chunk 4095 ('\n' :: rest) = (['\n'], rest) := rfl
  have hp : process_line ['\n'] = ⟨['\n'], ['\n'], none⟩ := rfl
  rw [run_lines, hc]
  simp only [hp]
  simp

/-- C8: whenever the line read from the head of the remaining stream
fills the whole 4095-character buffer budget without containing a
newline, the run terminates at once with the line-too-long error, with no
output for that line or any later line; at top level only the header has
been printed. -/
theorem C8_line_too_long (input : List Char)
    (hfull : ((fgets_chunk 4095 input).1).length = 4095)
    (hnl : ((fgets_chunk 4095 input).1).contains '\n' = false) :
    (∀ f, run_lines (f + 1) input = ([], some Err.lineIsTooLong)) ∧
    main_run input = (header, some Err.lineIsTooLong) := by
  have hne : input ≠ [] := by
    intro h
    rw [h] at hfull
    simp [fgets_chunk] at hfull
  have h1 : ∀ f, run_lines (f + 1) input = ([], some Err.lineIsTooLong) := by
    intro f
    cases input with
    | nil => exact absurd rfl hne
    | cons c cs =>
      rw [run_lines]
      simp only [hnl]
      simp
  refine ⟨h1, ?_⟩
  unfold main_run
  rw [h1 input.length]
  simp

/-- Reading a replicated non-newline character consumes it whole when it
fits the width budget. -/
lemma fgets_chunk_replicate (a : Char) (ha : ¬ (a = '\n')) (n : Nat) :
    ∀ w, n ≤ w → fgets_chunk w (List.replicate n a) = (List.replicate n a, []) := by
  induction n with
  | zero => intro w _; simp [fgets_chunk]
  | succ n ih =>
    intro w h
    rw [List.replicate_succ, fgets_chunk]
    rw [if_neg (by omega : ¬ (w = 0)), if_neg ha]
    rw [ih (w - 1) (by omega)]

/-- A replicated character other than the sought one is never found. -/
lemma contains_replicate_ne (n : Nat) (a b : Char) (h : (b == a) = false) :
    (List.replicate n a).contains b = false := by
  induction n with
  | zero => rfl
  | succ n ih => rw [List.replicate_succ, List.contains_cons, h, ih]; rfl

/-- C8 witness: a stream starting with 4095 non-newline characters
triggers the line-too-long error immediately. -/
theorem C8_witness :
    run_lines 1 (List.replicate 4095 'a') = ([], some Err.lineIsTooLong) ∧
    main_run (List.replicate 4095 'a') = (header, some Err.lineIsTooLong) := by
  have hrep := fgets_chunk_replicate 'a' (by decide) 4095 4095 le_rfl
  have h := C8_line_too_long (List.replicate 4095 'a')
    (by rw [hrep]; exact List.length_replicate 4095 'a')
    (by rw [hrep]; exact contains_replicate_ne 4095 'a' '\n' (by decide))
  exact ⟨h.1 0, h.2⟩

/-- C5 amended: for offsets of magnitude at most 9999 the rendered offset
is exactly a forced sign followed by 4 zero-padded digits (5 characters in
total, all of them digits after the sign); larger scanned offsets render
with more digits, so in general the width is a zero-padded minimum. -/
theorem C5_offset_min_width (g : Int) (h1 : -9999 ≤ g) (h2 : g ≤ 9999) :
    (print_gmt_offset g).length = 5 ∧
    (0 ≤ g → (print_gmt_offset g).head? = some '+') ∧
    (g < 0 → (print_gmt_offset g).head? = some '-') ∧
    (∀ c ∈ (print_gmt_offset g).tail, is_ascii_digit c = true) := by
  have hpow : (10 : Nat) ^ 4 = 10000 := by norm_num
  by_cases hg : 0 ≤ g
  · have hlen : (printf_pad0 4 g.toNat).length = 4 :=
      printf_pad0_length 4 g.toNat (by omega) (by rw [hpow]; omega)
    rw [print_gmt_offset, if_pos hg]
    exact ⟨by simp [hlen], fun _ => rfl, fun hlt => absurd hg (by omega),
      fun c hc => printf_pad0_all_digits 4 g.toNat c hc⟩
  · have hlen : (printf_pad0 4 (-g).toNat).length = 4 :=
      printf_pad0_length 4 (-g).toNat (by omega) (by rw [hpow]; omega)
    rw [print_gmt_offset, if_neg hg]
    exact ⟨by simp [hlen], fun hge => absurd hge hg, fun _ => rfl,
      fun c hc => printf_pad0_all_digits 4 (-g).toNat c hc⟩

/-- C5 witness: the offset -700 renders as a sign and exactly four
digits. -/
theorem C5_witness :
    (print_gmt_offset (-700)).length = 5 ∧
    (print_gmt_offset (-700)).head? = some '-' := by
  have h := C5_offset_min_width (-700) (by decide) (by decide)
  exact ⟨h.1, h.2.2.1 (by decide)⟩

/-- The copy loop of `print_enclosed` reaches the end of the line when the
closing delimiter never occurs, having emitted the whole remainder. -/
lemma scan_enclosed_body_no_end (endc : Char) :
    ∀ (body : List Char), endc ∉ body → scan_enclosed_body endc body = (body, []) := by
  intro body
  induction body with
  | nil => intro _; rfl
  | cons c cs ih =>
    intro h
    rw [List.mem_cons] at h
    push_neg at h
    rw [scan_enclosed_body, if_neg (fun hc => h.1 hc.symm), ih h.2]

/-- C3 amended: an enclosed token whose closing quote never arrives
streams its whole remainder and then raises the wrong-line-format error;
at whole-program level a line with an unterminated request field emits the
already-recognized fields (and the unterminated request text) and then
stops with the error, producing nothing for any subsequent line. -/
theorem C3_amended_streaming (body : List Char) (hq : '"' ∉ body) :
    print_enclosed ('"' :: body) '"' '"' = (body, Except.error Err.wrongLineFormat) ∧
    main_run (("a b c [10/Oct/2000:13:55:36 -0700] \"GET / HTTP/1.1\nx y\n").data) =
      (header ++ ("a\tb\tc\t2000-10-10T13:55:36-0700\tGET / HTTP/1.1\n").data,
        some Err.wrongLineFormat) := by
  constructor
  · rw [print_enclosed, if_pos rfl, scan_enclosed_body_no_end '"' body hq]
  · decide

/-- C3 witness: the unterminated request token of the claim's example
streams its text and fails with the wrong-line-format error. -/
theorem C3_witness :
    print_enclosed (("\"GET / HTTP/1.1\n").data) '"' '"' =
      (("GET / HTTP/1.1\n").data, Except.error Err.wrongLineFormat) := by
  have h := C3_amended_streaming (("GET / HTTP/1.1\n").data) (by decide)
  exact h.1

/-- C9: the field cursor advances monotonically: each tokenizing step
(`print_non_spaces`, `skip_spaces`, and `print_enclosed` and
`print_timestamp_as_iso` whenever they return), leaves a remaining input
that is a suffix of the input it was given and no longer than it — the
read position never rewinds. -/
theorem C9_cursor_monotone (s : List Char) :
    ((print_non_spaces s).2 <:+ s ∧ (print_non_spaces s).2.length ≤ s.length) ∧
    (skip_spaces s <:+ s ∧ (skip_spaces s).length ≤ s.length) ∧
    (∀ (op endc : Char) (o r : List Char),
      print_enclosed s op endc = (o, Except.ok r) →
        r <:+ s ∧ r.length ≤ s.length) ∧
    (∀ (o r : List Char),
      print_timestamp_as_iso s = (o, Except.ok r) →
        r <:+ s ∧ r.length ≤ s.length) := by
  refine ⟨⟨print_non_spaces_suffix s, (print_non_spaces_suffix s).length_le⟩,
    ⟨skip_spaces_suffix s, (skip_spaces_suffix s).length_le⟩,
    fun op endc o r h => ⟨print_enclosed_ok_suffix h, (print_enclosed_ok_suffix h).length_le⟩,
    fun o r h =>
      ⟨print_timestamp_as_iso_ok_suffix h, (print_timestamp_as_iso_ok_suffix h).length_le⟩⟩

/-- C9 witness: consuming an enclosed token leaves a remaining input that
is a suffix of, and no longer than, the line it was given. -/
theorem C9_witness :
    (" r").data <:+ ("\"a\" r").data ∧
    (" r").data.length ≤ ("\"a\" r").data.length :=
  (C9_cursor_monotone (("\"a\" r").data)).2.2.1 '"' '"' (("a").data) ((" r").data)
    (by decide)

/-- C10: the datetime parser applies no calendar range validation: for
every bracketed token whose seven sub-fields scan syntactically and whose
month abbreviation is in the table, the scanned values — however large —
are accepted and rendered zero-padded into the output timestamp
(`strftime` of exactly the scanned values, then the re-rendered offset),
with no error. -/
theorem C10_no_range_validation (s rest : List Char) (v : ScanVals) (mon : Nat)
    (hscan : scan_datetime s = some (v, rest))
    (hmon : parse_month v.mon_s = Except.ok mon)
    (hbr : rest.head? = some ']') :
    print_timestamp_as_iso ('[' :: s) =
      (strftime_iso (mkTm v mon) ++ print_gmt_offset v.gmt, Except.ok rest.tail) := by
  obtain ⟨inv1, inv2, inv3, inv4, inv5, inv6, -⟩ := scan_datetime_inv hscan
  have hmon12 : mon < 12 := parse_month_lt hmon
  obtain ⟨rest2, hrest⟩ : ∃ r2, rest = ']' :: r2 := by
    cases rest with
    | nil => simp at hbr
    | cons c2 r2 =>
      simp only [List.head?_cons, Option.some.injEq] at hbr
      exact ⟨r2, by rw [hbr]⟩
  subst hrest
  have hparse : parse_apache_datetime s = Except.ok (mkTm v mon, v.gmt, ']' :: rest2) := by
    rw [parse_apache_datetime]
    simp only [hscan, hmon]
  have hlen : (strftime_iso (mkTm v mon)).length = 19 := by
    apply strftime_iso_length <;> simp only [mkTm] <;> omega
  simp only [print_timestamp_as_iso, hparse, hlen, List.tail_cons, reduceIte]
  norm_num

/-- C10 witness: the out-of-range token `[99/Oct/2023:99:99:99 +0300]` is
accepted and rendered as `2023-10-99T99:99:99+0300`. -/
theorem C10_witness :
    print_timestamp_as_iso (("[99/Oct/2023:99:99:99 +0300]").data) =
      (("2023-10-99T99:99:99+0300").data, Except.ok []) := by
  have h := C10_no_range_validation (("99/Oct/2023:99:99:99 +0300]").data) (("]").data)
    ⟨99, "Oct", 2023, 99, 99, 99, 300⟩ 9 (by decide) (by decide) (by decide)
  rw [show (("[99/Oct/2023:99:99:99 +0300]").data) =
      '[' :: (("99/Oct/2023:99:99:99 +0300]").data) from rfl, h]
  decide

end AccessLogTabulator
